import Mathlib

/-!
Shallow embedding of the SMS-transactions search/benchmark engine
(`dsa/search_algorithms.py`) and the API layer's store mutators
(`api/sms_api_server.py`), with proofs of the specification's claims.

Records ("transactions") are Python dicts; the only field the engine
inspects is `'id'` (possibly absent before index construction), so a
record is modelled as an optional integer identifier plus an opaque
payload standing for all other fields.
-/

/-- A transaction record: the optional `'id'` field plus an opaque payload
standing for every other field (`address`, `body`, `date`, ...). -/
structure Transaction where
  id? : Option Int
  payload : Nat
deriving DecidableEq, Repr

/-- The value of `t['id']`. Every code path that reads it runs after
identifier assignment, where `id?` is `some _`; the default `0` is never
reached on those paths. -/
def key (t : Transaction) : Int := t.id?.getD 0

/-- `for i, transaction in enumerate(...): if 'id' not in transaction:
transaction['id'] = i + 1`, starting the enumeration at `i`.
(`SearchAlgorithms._prepare_data_structures`, lines 37-39.) -/
def assignIdsFrom (i : Nat) : List Transaction → List Transaction
  | [] => []
  | t :: ts =>
      (if t.id? = none then { t with id? := some ((i : Int) + 1) } else t) ::
        assignIdsFrom (i + 1) ts

/-- Identifier assignment pass of `_prepare_data_structures`. -/
def assignIds (ts : List Transaction) : List Transaction := assignIdsFrom 0 ts

/-- `self.transactions_dict = {t['id']: t for t in self.transactions}`
(line 42), as the lookup function of the resulting dict: a left fold of
keyed overwrites, so duplicate identifiers are last-write-wins. -/
def buildDict (ts : List Transaction) : Int → Option Transaction :=
  ts.foldl (fun m t => fun j => if t.id? = some j then some t else m j) (fun _ => none)

/-- `sorted(self.transactions, key=lambda x: x['id'])` (line 45): Python's
`sorted` is stable, so it is modelled by stable insertion by key
(equal keys insert before nothing they followed). -/
def insertById (x : Transaction) : List Transaction → List Transaction
  | [] => [x]
  | y :: ys => if key x ≤ key y then x :: y :: ys else y :: insertById x ys

/-- Stable sort by ascending identifier (model of Python `sorted` with
`key=lambda x: x['id']`). -/
def sortById : List Transaction → List Transaction
  | [] => []
  | x :: xs => insertById x (sortById xs)

/-- The three data structures a `SearchAlgorithms` instance holds after
`_prepare_data_structures` ran. -/
structure SearchState where
  transactions : List Transaction
  transactions_dict : Int → Option Transaction
  sorted_transactions : List Transaction

/-- `SearchAlgorithms.__init__` / `_prepare_data_structures` (lines 20-45):
assign missing identifiers in place, build the dict, build the sorted list. -/
def prepareDataStructures (input : List Transaction) : SearchState :=
  let ts := assignIds input
  { transactions := ts
    transactions_dict := buildDict ts
    sorted_transactions := sortById ts }

/-- `SearchAlgorithms.linear_search` (lines 47-65), result component only
(timing is a separate concern): first record with `t.get('id') ==
transaction_id`, else `None`. -/
def linear_search (ts : List Transaction) (tid : Int) : Option Transaction :=
  ts.find? fun t => t.id? = some tid

/-- `SearchAlgorithms.dictionary_lookup` (lines 67-80), result component:
`self.transactions_dict.get(transaction_id)`. -/
def dictionary_lookup (d : Int → Option Transaction) (tid : Int) : Option Transaction :=
  d tid

/-- The loop of `SearchAlgorithms.binary_search` (lines 94-109):
`while left <= right`, `mid = (left + right) // 2` (Python floor division,
`Int.fdiv`), compare `sorted_transactions[mid]['id']` with the target.
List indexing out of range would raise in Python; it is unreachable from
the initial call, and modelled as returning `none`. -/
def binary_searchAux (ts : List Transaction) (tid : Int) (left right : Int) :
    Option Transaction :=
  if h : left ≤ right then
    let mid := (left + right).fdiv 2
    match ts[mid.toNat]? with
    | none => none
    | some t =>
      if key t = tid then some t
      else if key t < tid then binary_searchAux ts tid (mid + 1) right
      else binary_searchAux ts tid left (mid - 1)
  else none
termination_by (right + 1 - left).toNat
decreasing_by
  all_goals
    rw [Int.fdiv_eq_ediv _ (by decide)]
    omega

/-- `SearchAlgorithms.binary_search` (lines 82-109), result component:
`left, right = 0, len(self.sorted_transactions) - 1`, then the loop. -/
def binary_search (ts : List Transaction) (tid : Int) : Option Transaction :=
  binary_searchAux ts tid 0 ((ts.length : Int) - 1)

/-- The three strategy names of a Comparison Report. -/
inductive Algo
  | linear_search
  | dictionary_lookup
  | binary_search
deriving DecidableEq, Repr

/-- `compare_algorithms` line 163-164: `'dictionary_lookup' if dict_time ==
fastest_time else 'binary_search' if binary_time == fastest_time else
'linear_search'`, where `fastest_time = min(times)`. Elapsed times are
parameters (the clock is nondeterministic), modelled as rationals. -/
def fastest_algorithm (lt dt bt : ℚ) : Algo :=
  let fastest_time := min lt (min dt bt)
  if dt = fastest_time then .dictionary_lookup
  else if bt = fastest_time then .binary_search
  else .linear_search

/-- `compare_algorithms` line 165-166: `'linear_search' if linear_time ==
slowest_time else 'binary_search' if binary_time == slowest_time else
'dictionary_lookup'`, where `slowest_time = max(times)`. -/
def slowest_algorithm (lt dt bt : ℚ) : Algo :=
  let slowest_time := max lt (max dt bt)
  if lt = slowest_time then .linear_search
  else if bt = slowest_time then .binary_search
  else .dictionary_lookup

/-- The `speed_improvement` block of a Comparison Report;
`none` models the `"N/A"` string. -/
structure SpeedImprovement where
  dictionary_vs_linear : Option ℚ
  binary_vs_linear : Option ℚ
  dictionary_vs_binary : Option ℚ
deriving DecidableEq, Repr

/-- `compare_algorithms` lines 167-171: each ratio is guarded by a
strict-positivity test on its denominator, `"N/A"` otherwise. -/
def speed_improvement (lt dt bt : ℚ) : SpeedImprovement :=
  { dictionary_vs_linear := if 0 < dt then some (lt / dt) else none
    binary_vs_linear := if 0 < bt then some (lt / bt) else none
    dictionary_vs_binary := if 0 < dt then some (bt / dt) else none }

/-- Spec-side definition for C5: elapsed(slower)/elapsed(faster), reported
as unavailable when the denominator is zero (no division performed). -/
def ratioOrUnavailable (slower faster : ℚ) : Option ℚ :=
  if faster = 0 then none else some (slower / faster)

/-- The elapsed time of each strategy, given the three measured times. -/
def elapsedOf (lt dt bt : ℚ) : Algo → ℚ
  | .linear_search => lt
  | .dictionary_lookup => dt
  | .binary_search => bt

/-- Spec-side tie-break precedence for "fastest": direct-keyed-lookup,
then sorted-bisection, then unordered-scan (lower rank wins). -/
def fastTieRank : Algo → Nat
  | .dictionary_lookup => 0
  | .binary_search => 1
  | .linear_search => 2

/-- Spec-side tie-break precedence for "slowest": unordered-scan, then
sorted-bisection, then direct-keyed-lookup (lower rank wins). -/
def slowTieRank : Algo → Nat
  | .linear_search => 0
  | .binary_search => 1
  | .dictionary_lookup => 2

/-- `ZeroDivisionError`, the only failure `benchmark_algorithms` can hit
(`total_time / len(test_ids)` and `(count / len(test_ids)) * 100` at lines
211-212; there is no empty-batch validation in the code). -/
inductive BenchError
  | zeroDivision
deriving DecidableEq, Repr

/-- Dispatch a strategy name to its search over the prepared state, result
component only. -/
def searchOf (s : SearchState) : Algo → Int → Option Transaction
  | .linear_search => linear_search s.transactions
  | .dictionary_lookup => dictionary_lookup s.transactions_dict
  | .binary_search => binary_search s.sorted_transactions

/-- The hit count a strategy accumulates over `benchmark_algorithms`'s
loop (lines 198-206): one per test id whose comparison reported
`found = True`. -/
def hitCount (s : SearchState) (a : Algo) (ids : List Int) : Nat :=
  (ids.filter fun i => (searchOf s a i).isSome).length

/-- The `success_rate` field `benchmark_algorithms` reports for one
strategy (line 212): `(count / len(test_ids)) * 100`, which raises
`ZeroDivisionError` when the batch is empty (the per-id loop contributes
nothing, then the averaging loop always divides). -/
def success_rate (s : SearchState) (a : Algo) (ids : List Int) : Except BenchError ℚ :=
  if ids.length = 0 then .error .zeroDivision
  else .ok (((hitCount s a ids : ℚ) / (ids.length : ℚ)) * 100)

/-- `SMSAPIHandler.load_transactions` lines 32-33: `transaction['id'] = i + 1`
applied to every record, unconditionally (no `'id' not in transaction`
check), starting the enumeration at `i`. -/
def apiAssignIdsFrom (i : Nat) : List Transaction → List Transaction
  | [] => []
  | t :: ts => { t with id? := some ((i : Int) + 1) } :: apiAssignIdsFrom (i + 1) ts

/-- The API handler's store: the record list and its keyed dict. -/
structure ApiState where
  transactions : List Transaction
  transactions_dict : Int → Option Transaction

/-- `SMSAPIHandler.load_transactions` (lines 26-39): assign `id = i + 1` to
every loaded record and key the dict by it. The Python loop interleaves
the two writes; as the assigned identifiers are distinct, the dict equals
`buildDict` of the assigned list. -/
def load_transactions (input : List Transaction) : ApiState :=
  let ts := apiAssignIdsFrom 0 input
  { transactions := ts, transactions_dict := buildDict ts }

/-- `SMSAPIHandler.do_POST` create path (lines 198-205), after field
validation: `new_transaction['id'] = len(self.transactions) + 1`, append
to the list, insert into the dict. -/
def do_POST (s : ApiState) (payload : Nat) : ApiState :=
  let t : Transaction := { id? := some ((s.transactions.length : Int) + 1), payload := payload }
  { transactions := s.transactions ++ [t]
    transactions_dict := fun j => if t.id? = some j then some t else s.transactions_dict j }

/-- `SMSAPIHandler.do_DELETE` (lines 277-285): look the id up in the dict
(404 leaves the state unchanged), else filter the list by
`t.get('id') != transaction_id` and `del` the dict entry. -/
def do_DELETE (s : ApiState) (tid : Int) : ApiState :=
  if (s.transactions_dict tid).isSome then
    { transactions := s.transactions.filter fun t => ¬ (t.id? = some tid)
      transactions_dict := fun j => if j = tid then none else s.transactions_dict j }
  else s

/-- `do_PUT`'s list update (lines 247-250): replace the first record whose
`t.get('id')` matches, leave the rest unchanged. -/
def replaceById (tid : Int) (u : Transaction) : List Transaction → List Transaction
  | [] => []
  | t :: ts => if t.id? = some tid then u :: ts else t :: replaceById tid u ts

/-- `SMSAPIHandler.do_PUT` (lines 231-252): existence check via the dict
(404 leaves the state unchanged), else the updated record keeps the
identifier (`updated_data['id'] = transaction_id`) and replaces the first
list match and the dict entry. -/
def do_PUT (s : ApiState) (tid : Int) (payload : Nat) : ApiState :=
  if (s.transactions_dict tid).isSome then
    let u : Transaction := { id? := some tid, payload := payload }
    { transactions := replaceById tid u s.transactions
      transactions_dict := fun j => if j = tid then some u else s.transactions_dict j }
  else s

/-- Spec-side definition for C3: the number of Comparison Reports in the
batch in which the given strategy reported `found = True`. -/
def foundCount (s : SearchState) (a : Algo) (ids : List Int) : Nat :=
  (ids.map fun i => (searchOf s a i).isSome).count true

/-! ### Sorting lemmas -/

theorem insertById_perm (x : Transaction) (l : List Transaction) :
    (insertById x l).Perm (x :: l) := by
  induction l with
  | nil => exact List.Perm.refl _
  | cons y ys ih =>
    unfold insertById
    split
    · exact List.Perm.refl _
    · exact ((ih.cons y).trans (List.Perm.swap x y ys))

theorem sortById_perm (l : List Transaction) : (sortById l).Perm l := by
  induction l with
  | nil => exact List.Perm.refl _
  | cons x xs ih =>
    exact (insertById_perm x (sortById xs)).trans (ih.cons x)

theorem insertById_sorted (x : Transaction) (l : List Transaction)
    (h : l.Pairwise fun a b => key a ≤ key b) :
    (insertById x l).Pairwise fun a b => key a ≤ key b := by
  induction l with
  | nil => simp [insertById]
  | cons y ys ih =>
    rw [List.pairwise_cons] at h
    unfold insertById
    split
    · rename_i hxy
      refine List.pairwise_cons.mpr ⟨?_, List.pairwise_cons.mpr h⟩
      intro z hz
      rcases List.mem_cons.mp hz with rfl | hz
      · exact hxy
      · exact le_trans hxy (h.1 z hz)
    · rename_i hxy
      refine List.pairwise_cons.mpr ⟨?_, ih h.2⟩
      intro z hz
      rcases List.mem_cons.mp ((insertById_perm x ys).mem_iff.mp hz) with rfl | hz
      · exact le_of_lt (lt_of_not_le hxy)
      · exact h.1 z hz

theorem sortById_sorted (l : List Transaction) :
    (sortById l).Pairwise fun a b => key a ≤ key b := by
  induction l with
  | nil => exact List.Pairwise.nil
  | cons x xs ih => exact insertById_sorted x (sortById xs) ih

theorem insertById_filter_key (x : Transaction) (l : List Transaction) (k : Int) :
    (insertById x l).filter (fun t => key t = k) =
      if key x = k then x :: l.filter (fun t => key t = k)
      else l.filter (fun t => key t = k) := by
  induction l with
  | nil => by_cases hx : key x = k <;> simp [insertById, List.filter, hx]
  | cons y ys ih =>
    unfold insertById
    split
    · rename_i hxy
      by_cases hx : key x = k <;> simp [List.filter, hx]
    · rename_i hxy
      by_cases hx : key x = k
      · have hy : ¬ (key y = k) := by
          intro hy
          exact hxy (by rw [hx, ← hy])
        simp [List.filter, hx, hy, ih]
      · by_cases hy : key y = k <;> simp [List.filter, hx, hy, ih]

theorem sortById_filter_key (l : List Transaction) (k : Int) :
    (sortById l).filter (fun t => key t = k) = l.filter (fun t => key t = k) := by
  induction l with
  | nil => rfl
  | cons x xs ih =>
    show (insertById x (sortById xs)).filter _ = _
    rw [insertById_filter_key]
    by_cases hx : key x = k <;> simp [List.filter, hx, ih]

/-! ### Lookup lemmas -/

theorem find?_congr_pred {p q : Transaction → Bool} (l : List Transaction)
    (h : ∀ t ∈ l, p t = q t) : l.find? p = l.find? q := by
  induction l with
  | nil => rfl
  | cons x xs ih =>
    simp only [List.find?]
    rw [h x (List.mem_cons_self x xs)]
    cases hq : q x
    · exact ih fun t ht => h t (List.mem_cons_of_mem x ht)
    · rfl

theorem find?_key_eq_some_of_nodup {l : List Transaction} {r : Transaction} {i : Int}
    (hnd : (l.map key).Nodup) (hr : r ∈ l) (hk : key r = i) :
    l.find? (fun t => key t = i) = some r := by
  induction l with
  | nil => cases hr
  | cons x xs ih =>
    rw [List.map_cons, List.nodup_cons] at hnd
    by_cases hx : key x = i
    · have hrx : r = x := by
        rcases List.mem_cons.mp hr with rfl | hmem
        · rfl
        · exact absurd (by rw [hx, ← hk]; exact List.mem_map_of_mem key hmem) hnd.1
      simp [List.find?, hx, hrx]
    · rcases List.mem_cons.mp hr with rfl | hmem
      · exact absurd hk hx
      · have := ih hnd.2 hmem
        simp [List.find?, hx, this]

theorem find?_key_eq_none {l : List Transaction} {i : Int}
    (h : ∀ t ∈ l, key t ≠ i) : l.find? (fun t => key t = i) = none := by
  rw [List.find?_eq_none]
  intro x hx
  simp [h x hx]

theorem buildDict_append (l : List Transaction) (t : Transaction) (j : Int) :
    buildDict (l ++ [t]) j = if t.id? = some j then some t else buildDict l j := by
  unfold buildDict
  rw [List.foldl_append]
  rfl

theorem buildDict_eq_reverse_find? (l : List Transaction) (j : Int) :
    buildDict l j = l.reverse.find? (fun t => t.id? = some j) := by
  induction l using List.reverseRecOn with
  | nil => rfl
  | append_singleton l t ih =>
    rw [buildDict_append, List.reverse_append]
    by_cases ht : t.id? = some j
    · simp [List.find?, ht]
    · simp [List.find?, ht, ih]

/-! ### Identifier-assignment lemmas -/

theorem assignIdsFrom_isSome (i : Nat) (l : List Transaction) :
    ∀ t ∈ assignIdsFrom i l, t.id?.isSome := by
  induction l generalizing i with
  | nil => intro t ht; cases ht
  | cons x xs ih =>
    intro t ht
    rcases List.mem_cons.mp ht with rfl | hmem
    · by_cases hx : x.id? = none
      · simp [hx]
      · simp only [hx, if_false]
        exact Option.ne_none_iff_isSome.mp hx
    · exact ih (i + 1) t hmem

theorem assignIdsFrom_getElem? (i : Nat) (l : List Transaction) (j : Nat) :
    (assignIdsFrom i l)[j]? =
      (l[j]?).map fun t =>
        if t.id? = none then { t with id? := some (((i + j : Nat) : Int) + 1) } else t := by
  induction l generalizing i j with
  | nil => simp [assignIdsFrom]
  | cons x xs ih =>
    cases j with
    | zero => simp [assignIdsFrom]
    | succ j' =>
      have harith : (i + 1) + j' = i + (j' + 1) := by omega
      simp only [assignIdsFrom, List.getElem?_cons_succ]
      rw [ih (i + 1) j', harith]

theorem assignIdsFrom_of_isSome (i : Nat) (l : List Transaction)
    (h : ∀ t ∈ l, t.id?.isSome) : assignIdsFrom i l = l := by
  induction l generalizing i with
  | nil => rfl
  | cons x xs ih =>
    have hx : ¬ (x.id? = none) :=
      Option.ne_none_iff_isSome.mpr (h x (List.mem_cons_self x xs))
    simp only [assignIdsFrom, hx, if_false]
    rw [ih (i + 1) fun t ht => h t (List.mem_cons_of_mem x ht)]

theorem apiAssignIdsFrom_getElem? (i : Nat) (l : List Transaction) (j : Nat) :
    (apiAssignIdsFrom i l)[j]? =
      (l[j]?).map fun t => { t with id? := some (((i + j : Nat) : Int) + 1) } := by
  induction l generalizing i j with
  | nil => simp [apiAssignIdsFrom]
  | cons x xs ih =>
    cases j with
    | zero => simp [apiAssignIdsFrom]
    | succ j' =>
      have harith : (i + 1) + j' = i + (j' + 1) := by omega
      simp only [apiAssignIdsFrom, List.getElem?_cons_succ]
      rw [ih (i + 1) j', harith]

/-! ### Binary search lemmas -/

theorem binary_searchAux_sound (ts : List Transaction) (tid : Int) (left right : Int)
    (t : Transaction) :
    binary_searchAux ts tid left right = some t → t ∈ ts ∧ key t = tid := by
  induction left, right using binary_searchAux.induct ts tid with
  | case1 left right hle mid hnone =>
    intro h
    rw [binary_searchAux, dif_pos hle] at h
    simp only [hnone] at h
    cases h
  | case2 left right hle mid u hu hk =>
    intro h
    rw [binary_searchAux, dif_pos hle] at h
    simp only [hu, if_pos hk] at h
    cases h
    refine ⟨?_, hk⟩
    rcases List.getElem?_eq_some.mp hu with ⟨hl, rfl⟩
    exact List.getElem_mem hl
  | case3 left right hle mid u hu hne hlt ih =>
    intro h
    rw [binary_searchAux, dif_pos hle] at h
    simp only [hu, if_neg hne, if_pos hlt] at h
    exact ih h
  | case4 left right hle mid u hu hne hnlt ih =>
    intro h
    rw [binary_searchAux, dif_pos hle] at h
    simp only [hu, if_neg hne, if_neg hnlt] at h
    exact ih h
  | case5 left right hle =>
    intro h
    rw [binary_searchAux, dif_neg hle] at h
    cases h

theorem binary_searchAux_found (ts : List Transaction) (tid : Int)
    (hs : ts.Pairwise fun a b => key a ≤ key b) (left right : Int) :
    0 ≤ left → right < (ts.length : Int) →
    ∀ j : Nat, left ≤ (j : Int) → (j : Int) ≤ right →
    (∃ t, ts[j]? = some t ∧ key t = tid) →
    ∃ u, binary_searchAux ts tid left right = some u ∧ key u = tid := by
  induction left, right using binary_searchAux.induct ts tid with
  | case1 left right hle mid hnone =>
    intro h0 hlen j hjl hjr hex
    have hmid2 : (left + right).fdiv 2 ≤ right := by
      rw [Int.fdiv_eq_ediv _ (by decide)]
      omega
    have hnone' : ts.length ≤ mid.toNat := List.getElem?_eq_none_iff.mp hnone
    omega
  | case2 left right hle mid u hu hk =>
    intro h0 hlen j hjl hjr hex
    refine ⟨u, ?_, hk⟩
    rw [binary_searchAux, dif_pos hle]
    simp only [hu, if_pos hk]
  | case3 left right hle mid u hu hne hlt ih =>
    intro h0 hlen j hjl hjr hex
    obtain ⟨t, hjt, hkt⟩ := hex
    have hmid1 : left ≤ (left + right).fdiv 2 := by
      rw [Int.fdiv_eq_ediv _ (by decide)]
      omega
    have hmid2 : (left + right).fdiv 2 ≤ right := by
      rw [Int.fdiv_eq_ediv _ (by decide)]
      omega
    obtain ⟨hjlen, hjget⟩ := List.getElem?_eq_some.mp hjt
    obtain ⟨hmlen, hmget⟩ := List.getElem?_eq_some.mp hu
    -- the target key sits strictly right of mid
    have hjm : mid < (j : Int) := by
      by_contra hcon
      push_neg at hcon
      rcases Nat.lt_or_ge j mid.toNat with hlt' | hge
      · have := List.pairwise_iff_get.mp hs ⟨j, hjlen⟩ ⟨mid.toNat, hmlen⟩
          (Fin.mk_lt_mk.mpr hlt')
        simp only [List.get_eq_getElem, hjget, hmget] at this
        omega
      · have heq : j = mid.toNat := by omega
        subst heq
        rw [hjget] at hmget
        rw [hmget] at hkt
        omega
    have h' : ∃ u', binary_searchAux ts tid (mid + 1) right = some u' ∧ key u' = tid := by
      refine ih (by omega) hlen j (by omega) hjr ⟨t, hjt, hkt⟩
    obtain ⟨u', hu', hku'⟩ := h'
    refine ⟨u', ?_, hku'⟩
    rw [binary_searchAux, dif_pos hle]
    simp only [hu, if_neg hne, if_pos hlt]
    exact hu'
  | case4 left right hle mid u hu hne hnlt ih =>
    intro h0 hlen j hjl hjr hex
    obtain ⟨t, hjt, hkt⟩ := hex
    have hmid1 : left ≤ (left + right).fdiv 2 := by
      rw [Int.fdiv_eq_ediv _ (by decide)]
      omega
    have hmid2 : (left + right).fdiv 2 ≤ right := by
      rw [Int.fdiv_eq_ediv _ (by decide)]
      omega
    obtain ⟨hjlen, hjget⟩ := List.getElem?_eq_some.mp hjt
    obtain ⟨hmlen, hmget⟩ := List.getElem?_eq_some.mp hu
    -- the target key sits strictly left of mid
    have hjm : (j : Int) < mid := by
      by_contra hcon
      push_neg at hcon
      rcases Nat.lt_or_ge mid.toNat j with hlt' | hge
      · have := List.pairwise_iff_get.mp hs ⟨mid.toNat, hmlen⟩ ⟨j, hjlen⟩
          (Fin.mk_lt_mk.mpr hlt')
        simp only [List.get_eq_getElem, hjget, hmget] at this
        omega
      · have heq : j = mid.toNat := by omega
        subst heq
        rw [hjget] at hmget
        rw [hmget] at hkt
        omega
    have h' : ∃ u', binary_searchAux ts tid left (mid - 1) = some u' ∧ key u' = tid := by
      refine ih h0 (by omega) j hjl (by omega) ⟨t, hjt, hkt⟩
    obtain ⟨u', hu', hku'⟩ := h'
    refine ⟨u', ?_, hku'⟩
    rw [binary_searchAux, dif_pos hle]
    simp only [hu, if_neg hne, if_neg hnlt]
    exact hu'
  | case5 left right hle =>
    intro h0 hlen j hjl hjr hex
    omega

theorem binary_search_eq_some {ts : List Transaction} {tid : Int} {r : Transaction}
    (hs : ts.Pairwise fun a b => key a ≤ key b)
    (hnd : (ts.map key).Nodup)
    (hr : r ∈ ts) (hk : key r = tid) :
    binary_search ts tid = some r := by
  obtain ⟨j, hj⟩ := List.getElem?_of_mem hr
  have hjlen : j < ts.length := (List.getElem?_eq_some.mp hj).1
  obtain ⟨u, hu, hku⟩ :=
    binary_searchAux_found ts tid hs 0 ((ts.length : Int) - 1)
      le_rfl (by omega) j (by omega) (by omega) ⟨r, hj, hk⟩
  obtain ⟨hmem, -⟩ := binary_searchAux_sound ts tid 0 ((ts.length : Int) - 1) u hu
  have hur : u = r := List.inj_on_of_nodup_map hnd hmem hr (by rw [hku, hk])
  rw [binary_search, hu, hur]

theorem binary_search_eq_none {ts : List Transaction} {tid : Int}
    (h : ∀ t ∈ ts, key t ≠ tid) :
    binary_search ts tid = none := by
  cases hbs : binary_search ts tid with
  | none => rfl
  | some t =>
    obtain ⟨hmem, hkt⟩ := binary_searchAux_sound ts tid 0 ((ts.length : Int) - 1) t hbs
    exact absurd hkt (h t hmem)

theorem linear_search_eq_find?_key (ts : List Transaction) (tid : Int)
    (hall : ∀ t ∈ ts, t.id?.isSome) :
    linear_search ts tid = ts.find? (fun t => key t = tid) := by
  unfold linear_search
  apply find?_congr_pred
  intro t ht
  obtain ⟨v, hv⟩ := Option.isSome_iff_exists.mp (hall t ht)
  simp [key, hv]

theorem buildDict_eq_find?_key (ts : List Transaction) (tid : Int)
    (hall : ∀ t ∈ ts, t.id?.isSome)
    (hnd : (ts.map key).Nodup) :
    buildDict ts tid = ts.find? (fun t => key t = tid) := by
  rw [buildDict_eq_reverse_find?]
  have hcong : ts.reverse.find? (fun t => t.id? = some tid) =
      ts.reverse.find? (fun t => key t = tid) := by
    apply find?_congr_pred
    intro t ht
    obtain ⟨v, hv⟩ := Option.isSome_iff_exists.mp (hall t (List.mem_reverse.mp ht))
    simp [key, hv]
  rw [hcong]
  by_cases hex : ∃ r ∈ ts, key r = tid
  · obtain ⟨r, hr, hk⟩ := hex
    rw [find?_key_eq_some_of_nodup
        (by rw [List.map_reverse]; exact List.nodup_reverse.mpr hnd)
        (List.mem_reverse.mpr hr) hk,
      find?_key_eq_some_of_nodup hnd hr hk]
  · push_neg at hex
    rw [find?_key_eq_none (fun t ht => hex t (List.mem_reverse.mp ht)),
      find?_key_eq_none hex]

theorem agreement_core (l : List Transaction)
    (hall : ∀ t ∈ l, t.id?.isSome)
    (hnd : (l.map key).Nodup) (tid : Int) :
    linear_search l tid = buildDict l tid ∧
      buildDict l tid = binary_search (sortById l) tid := by
  have hperm : (sortById l).Perm l := sortById_perm l
  have hsorted := sortById_sorted l
  have hndS : ((sortById l).map key).Nodup := ((hperm.map key).nodup_iff).mpr hnd
  have hbin : binary_search (sortById l) tid = l.find? (fun t => key t = tid) := by
    by_cases hex : ∃ r ∈ l, key r = tid
    · obtain ⟨r, hr, hk⟩ := hex
      rw [binary_search_eq_some hsorted hndS (hperm.mem_iff.mpr hr) hk,
        find?_key_eq_some_of_nodup hnd hr hk]
    · push_neg at hex
      rw [binary_search_eq_none (fun t ht => hex t (hperm.subset ht)),
        find?_key_eq_none hex]
  refine ⟨?_, ?_⟩
  · rw [linear_search_eq_find?_key l tid hall, buildDict_eq_find?_key l tid hall hnd]
  · rw [buildDict_eq_find?_key l tid hall hnd, hbin]

theorem hitCount_eq_foundCount (s : SearchState) (a : Algo) (ids : List Int) :
    hitCount s a ids = foundCount s a ids := by
  unfold hitCount foundCount
  induction ids with
  | nil => rfl
  | cons x xs ih =>
    by_cases hx : (searchOf s a x).isSome <;>
      simp [List.filter_cons, List.count_cons, hx, ih]

/-! ### Claims -/

/-- C1: for every store state in which no two records share an identifier
after index construction, the three strategies return the same found/absent
verdict for every queried identifier and, when found, the identical record. -/
theorem C1_strategy_agreement (input : List Transaction)
    (hnd : ((prepareDataStructures input).transactions.map key).Nodup) (tid : Int) :
    linear_search (prepareDataStructures input).transactions tid =
        dictionary_lookup (prepareDataStructures input).transactions_dict tid ∧
      dictionary_lookup (prepareDataStructures input).transactions_dict tid =
        binary_search (prepareDataStructures input).sorted_transactions tid :=
  agreement_core (assignIds input) (assignIdsFrom_isSome 0 input) hnd tid

/-- Witness for C1: the sample three-record store, queried at identifier 2. -/
theorem C1_strategy_agreement_witness :
    (((prepareDataStructures [⟨some 1, 10⟩, ⟨some 2, 11⟩, ⟨some 3, 12⟩]).transactions.map
        key).Nodup) ∧
      (linear_search
          (prepareDataStructures [⟨some 1, 10⟩, ⟨some 2, 11⟩, ⟨some 3, 12⟩]).transactions 2 =
        dictionary_lookup
          (prepareDataStructures
            [⟨some 1, 10⟩, ⟨some 2, 11⟩, ⟨some 3, 12⟩]).transactions_dict 2 ∧
      dictionary_lookup
          (prepareDataStructures
            [⟨some 1, 10⟩, ⟨some 2, 11⟩, ⟨some 3, 12⟩]).transactions_dict 2 =
        binary_search
          (prepareDataStructures
            [⟨some 1, 10⟩, ⟨some 2, 11⟩, ⟨some 3, 12⟩]).sorted_transactions 2) :=
  ⟨by decide, C1_strategy_agreement [⟨some 1, 10⟩, ⟨some 2, 11⟩, ⟨some 3, 12⟩] (by decide) 2⟩

/-- C6: after every index-builder run, the sorted sequence is non-decreasing
in identifier, and the sort is stable: for each identifier value, the
records carrying it appear in the sorted sequence in exactly their original
relative order. -/
theorem C6_sorted_and_stable (input : List Transaction) :
    ((prepareDataStructures input).sorted_transactions.Pairwise fun a b => key a ≤ key b) ∧
      ∀ k : Int,
        (prepareDataStructures input).sorted_transactions.filter (fun t => key t = k) =
          (prepareDataStructures input).transactions.filter (fun t => key t = k) :=
  ⟨sortById_sorted (assignIds input), fun k => sortById_filter_key (assignIds input) k⟩

/-- C10: on the empty store every strategy returns absent for every queried
identifier, without error: the scan exhausts the empty sequence, the dict
probe misses, and bisection starts with `right = -1`, so its loop body and
its list indexing never execute. -/
theorem C10_empty_store_absent (tid : Int) :
    linear_search (prepareDataStructures []).transactions tid = none ∧
      dictionary_lookup (prepareDataStructures []).transactions_dict tid = none ∧
      binary_search (prepareDataStructures []).sorted_transactions tid = none := by
  refine ⟨rfl, rfl, ?_⟩
  show binary_searchAux [] tid 0 (((0 : Nat) : Int) - 1) = none
  rw [binary_searchAux, dif_neg (by decide)]

/-- C8 counterexample: index construction mutates a record lacking an
identifier (it gains `id = 1`), so the store is not unchanged for every
input record list. -/
theorem C8_counterexample :
    (prepareDataStructures [⟨none, 7⟩]).transactions = [⟨some 1, 7⟩] ∧
      ((⟨some 1, 7⟩ : Transaction) ≠ ⟨none, 7⟩) := by decide

/-- C8 amended: index construction's only store mutation is assigning
identifiers to records lacking one; whenever every input record already
carries an identifier, the record store and the records it contains are
unchanged. -/
theorem C8_no_mutation_when_ids_present (input : List Transaction)
    (h : ∀ t ∈ input, t.id?.isSome) :
    (prepareDataStructures input).transactions = input :=
  assignIdsFrom_of_isSome 0 input h

/-- Witness for the amended C8: a one-record store whose record carries
identifier 5 is left unchanged. -/
theorem C8_no_mutation_witness :
    (∀ t ∈ [(⟨some 5, 3⟩ : Transaction)], t.id?.isSome) ∧
      (prepareDataStructures [⟨some 5, 3⟩]).transactions = [⟨some 5, 3⟩] :=
  ⟨by decide, C8_no_mutation_when_ids_present [⟨some 5, 3⟩] (by decide)⟩

/-- C7 counterexample: the API server's initial load reassigns an
identifier the record already carries — a record loaded with id 5 at
position 0 ends up with id 1. -/
theorem C7_counterexample :
    (load_transactions [⟨some 5, 0⟩]).transactions = [⟨some 1, 0⟩] ∧
      ((⟨some 1, 0⟩ : Transaction) ≠ ⟨some 5, 0⟩) := by decide

/-- C7 amended: at initial load, the search engine's index builder assigns
`identifier = 1-based position` only to records lacking one and never
reassigns an existing identifier, while the API server's loader assigns
`identifier = 1-based position` to every record unconditionally,
overwriting any identifier already present. -/
theorem C7_id_assignment (input : List Transaction) (j : Nat) :
    ((prepareDataStructures input).transactions)[j]? =
        (input[j]?).map (fun t =>
          if t.id? = none then { t with id? := some ((j : Int) + 1) } else t) ∧
      ((load_transactions input).transactions)[j]? =
        (input[j]?).map (fun t => { t with id? := some ((j : Int) + 1) }) := by
  constructor
  · have h := assignIdsFrom_getElem? 0 input j
    simpa using h
  · have h := apiAssignIdsFrom_getElem? 0 input j
    simpa using h

/-- C9: the uniqueness invariant is not preserved by the API mutators: on
a consistent three-record store (identifiers 1, 2, 3), DELETE of id 1
followed by POST assigns the new record `id = len + 1 = 3`, duplicating
the surviving id 3. -/
theorem C9_create_after_delete_duplicates :
    ((load_transactions [⟨none, 0⟩, ⟨none, 1⟩, ⟨none, 2⟩]).transactions.map key).Nodup ∧
      (do_POST (do_DELETE (load_transactions [⟨none, 0⟩, ⟨none, 1⟩, ⟨none, 2⟩]) 1)
          9).transactions.map key = [2, 3, 3] ∧
      ¬ ((do_POST (do_DELETE (load_transactions [⟨none, 0⟩, ⟨none, 1⟩, ⟨none, 2⟩]) 1)
          9).transactions.map key).Nodup := by decide

/-- C2: `benchmark_algorithms` performs no empty-batch validation: the
empty batch reaches the averaging division and fails with
`ZeroDivisionError` (not an InvalidInput rejection) for every store state
and strategy. -/
theorem C2_empty_batch_zero_division (s : SearchState) (a : Algo) :
    success_rate s a [] = .error .zeroDivision := rfl

/-- C3 counterexample: one-record store, batch `[1]`: the strategy found
the record in 1 of 1 reports, so the claim predicts `success_rate = 1/1`,
but the code reports `100`. -/
theorem C3_counterexample :
    success_rate (prepareDataStructures [⟨some 1, 0⟩]) .linear_search [1] = .ok 100 ∧
      (foundCount (prepareDataStructures [⟨some 1, 0⟩]) .linear_search [1] : ℚ) /
        (([1] : List Int).length : ℚ) = 1 ∧
      (100 : ℚ) ≠ 1 := by
  have hcount : hitCount (prepareDataStructures [⟨some 1, 0⟩]) .linear_search [1] = 1 := by
    decide
  have hfound : foundCount (prepareDataStructures [⟨some 1, 0⟩]) .linear_search [1] = 1 := by
    decide
  refine ⟨?_, ?_, by norm_num⟩
  · rw [success_rate, if_neg (by decide), hcount]
    norm_num
  · rw [hfound]
    norm_num

/-- C3 amended: for every non-empty batch, the per-strategy `success_rate`
equals (count of Comparison Reports in which the strategy found a record)
divided by the batch size, times 100 — a percentage, computed exactly. -/
theorem C3_success_rate_percentage (s : SearchState) (a : Algo) (ids : List Int)
    (h : ids ≠ []) :
    success_rate s a ids =
      .ok (((foundCount s a ids : ℚ) / (ids.length : ℚ)) * 100) := by
  have hlen : ¬ (ids.length = 0) := fun hc => h (List.length_eq_zero.mp hc)
  rw [success_rate, if_neg hlen, hitCount_eq_foundCount]

/-- Witness for the amended C3: one-record store and batch `[1]` give
success rate 100. -/
theorem C3_success_rate_witness :
    ([1] : List Int) ≠ [] ∧
      success_rate (prepareDataStructures [⟨some 1, 0⟩]) .linear_search [1] =
        .ok (((foundCount (prepareDataStructures [⟨some 1, 0⟩]) .linear_search [1] : ℚ) /
          (([1] : List Int).length : ℚ)) * 100) :=
  ⟨by decide,
    C3_success_rate_percentage (prepareDataStructures [⟨some 1, 0⟩]) .linear_search [1]
      (by decide)⟩

/-- C4: in every Comparison Report, the strategy named fastest attains the
minimal elapsed time and, among the strategies attaining it, is first in
the precedence direct-keyed-lookup, sorted-bisection, unordered-scan
(covering ties, including all-zero durations); symmetrically, the strategy
named slowest attains the maximal elapsed time and is first in the
precedence unordered-scan, sorted-bisection, direct-keyed-lookup. -/
theorem C4_tie_break (lt dt bt : ℚ) :
    (elapsedOf lt dt bt (fastest_algorithm lt dt bt) = min lt (min dt bt) ∧
      ∀ a : Algo, elapsedOf lt dt bt a = min lt (min dt bt) →
        fastTieRank (fastest_algorithm lt dt bt) ≤ fastTieRank a) ∧
    (elapsedOf lt dt bt (slowest_algorithm lt dt bt) = max lt (max dt bt) ∧
      ∀ a : Algo, elapsedOf lt dt bt a = max lt (max dt bt) →
        slowTieRank (slowest_algorithm lt dt bt) ≤ slowTieRank a) := by
  constructor
  · simp only [fastest_algorithm]
    split_ifs with h1 h2
    · refine ⟨by exact h1, fun a ha => ?_⟩
      cases a <;> simp [fastTieRank]
    · refine ⟨by exact h2, fun a ha => ?_⟩
      cases a
      · simp [fastTieRank]
      · exact absurd ha h1
      · simp [fastTieRank]
    · have hm : lt = min lt (min dt bt) := by
        rcases min_choice lt (min dt bt) with h | h
        · exact h.symm
        · rcases min_choice dt bt with h' | h'
          · exact absurd (h.trans h').symm h1
          · exact absurd (h.trans h').symm h2
      refine ⟨by exact hm, fun a ha => ?_⟩
      cases a
      · simp [fastTieRank]
      · exact absurd ha h1
      · exact absurd ha h2
  · simp only [slowest_algorithm]
    split_ifs with h1 h2
    · refine ⟨by exact h1, fun a ha => ?_⟩
      cases a <;> simp [slowTieRank]
    · refine ⟨by exact h2, fun a ha => ?_⟩
      cases a
      · exact absurd ha h1
      · simp [slowTieRank]
      · simp [slowTieRank]
    · have hm : dt = max lt (max dt bt) := by
        rcases max_choice lt (max dt bt) with h | h
        · exact absurd h.symm h1
        · rcases max_choice dt bt with h' | h'
          · exact (h.trans h').symm
          · exact absurd (h.trans h').symm h2
      refine ⟨by exact hm, fun a ha => ?_⟩
      cases a
      · exact absurd ha h1
      · simp [slowTieRank]
      · exact absurd ha h2

/-- Witness for C4 at the all-equal (tied) times 1, 1, 1. -/
theorem C4_tie_break_witness :
    elapsedOf 1 1 1 (fastest_algorithm 1 1 1) = min 1 (min 1 1) ∧
      fastTieRank (fastest_algorithm 1 1 1) ≤ fastTieRank Algo.binary_search ∧
      elapsedOf 1 1 1 (slowest_algorithm 1 1 1) = max 1 (max 1 1) ∧
      slowTieRank (slowest_algorithm 1 1 1) ≤ slowTieRank Algo.binary_search :=
  ⟨(C4_tie_break 1 1 1).1.1,
    (C4_tie_break 1 1 1).1.2 Algo.binary_search (by decide),
    (C4_tie_break 1 1 1).2.1,
    (C4_tie_break 1 1 1).2.2 Algo.binary_search (by decide)⟩

/-- C5: for nonnegative elapsed times, each reported speed ratio equals
elapsed(slower) / elapsed(faster) for its pair — linear is the slower
member against dictionary and against binary, binary the slower member
against dictionary — and whenever the denominator is zero the ratio is
reported as unavailable instead of computed. -/
theorem C5_speed_ratio (lt dt bt : ℚ) (hlt : 0 ≤ lt) (hdt : 0 ≤ dt) (hbt : 0 ≤ bt) :
    speed_improvement lt dt bt =
      { dictionary_vs_linear := ratioOrUnavailable lt dt
        binary_vs_linear := ratioOrUnavailable lt bt
        dictionary_vs_binary := ratioOrUnavailable bt dt } := by
  have h : ∀ x y : ℚ, 0 ≤ y →
      (if 0 < y then some (x / y) else none) = ratioOrUnavailable x y := by
    intro x y hy
    rcases eq_or_lt_of_le hy with h0 | h0
    · rw [if_neg (by rw [← h0]; exact lt_irrefl 0), ratioOrUnavailable, if_pos h0.symm]
    · rw [if_pos h0, ratioOrUnavailable, if_neg (ne_of_gt h0)]
  simp only [speed_improvement, SpeedImprovement.mk.injEq]
  exact ⟨h lt dt hdt, h lt bt hbt, h bt dt hdt⟩

/-- Witness for C5 with a zero dictionary time: both dictionary-denominator
ratios are unavailable, the binary-denominator ratio is computed. -/
theorem C5_speed_ratio_witness :
    (0 : ℚ) ≤ 3 ∧ (0 : ℚ) ≤ 0 ∧ (0 : ℚ) ≤ 2 ∧
      speed_improvement 3 0 2 =
        { dictionary_vs_linear := ratioOrUnavailable 3 0
          binary_vs_linear := ratioOrUnavailable 3 2
          dictionary_vs_binary := ratioOrUnavailable 2 0 } :=
  ⟨by norm_num, le_rfl, by norm_num,
    C5_speed_ratio 3 0 2 (by norm_num) le_rfl (by norm_num)⟩
